import Mathlib

/-!
Verification of the quadrotor NMPC package (`par`): a shallow embedding of
its configuration utilities, quaternion kinematics, dynamics models,
Runge-Kutta integrator and multiple-shooting NMPC builder, together with
theorems settling the specified properties of each.
-/

namespace PAR

/-- Python runtime error kinds raised by the embedded code paths. -/
inductive PyErr where
  | attributeError
  | typeError
  | indexError
  | assertionError
  deriving DecidableEq, Repr

/-- A configuration is a Python dict from field name to the attributes of
the field; only the `"dimensions"` attribute matters for indexing, so an
entry is modelled as a name paired with its dimension count.  Python dicts
preserve insertion order, hence the list. -/
abbrev Config := List (String × Nat)

/-- A dynamically typed Python value.  The parameters of `get_sub_config`
receive a `str` and a `dict` in normal use, but `get_dimensions` passes its
arguments positionally in swapped order, so either position may hold either
type. -/
inductive PyVal where
  | str (s : String)
  | dict (d : Config)

/-- `config_utils.get_sub_config(id, config)`: iterates over
`config.items()` and keeps the entries whose key contains `id` as a
substring (`config_id.find(id) != -1`).  Calling `.items()` on a `str`
raises `AttributeError`; `str.find` applied to a non-string argument raises
`TypeError` (only reached when the dict is nonempty). -/
def get_sub_config (id : PyVal) (config : PyVal) : Except PyErr Config :=
  match config with
  | .str _ => .error .attributeError
  | .dict entries =>
    match id with
    | .dict _ => if entries.isEmpty then .ok [] else .error .typeError
    | .str s => .ok (entries.filter (fun e => decide (s.data <:+: e.fst.data)))

/-- `config_utils.get_dimensions(id, config)`: sums the `"dimensions"`
attributes of the sub-configuration.  The source forwards its arguments to
`get_sub_config` in swapped positional order: `get_sub_config(config, id)`,
so the first parameter of `get_sub_config` receives the dict and the second
receives the string. -/
def get_dimensions (id : String) (config : Config) : Except PyErr Nat :=
  match get_sub_config (.dict config) (.str id) with
  | .error e => .error e
  | .ok sub => .ok (sub.map Prod.snd).sum

/-- Loop of `config_utils.get_start_or_end_index`: walks the configuration
entries with accumulator `i`, where `lastKey` is `list(config.keys())[-1]`
of the full configuration.  In the stop-index mode (`is_start = false`) the
accumulator is incremented before the name check; in the start-index mode it
is incremented after.  Falling off the loop returns Python `None`, modelled
as `Option.none`. -/
def start_or_end_loop (id : String) (lastKey : Option String)
    (is_start : Bool) : Config → Nat → Except PyErr (Option Nat)
  | [], _ => .ok none
  | (key, dims) :: rest, i =>
    let j := if is_start then i else i + dims
    if key = id then .ok (some j)
    else if some key = lastKey then .error .indexError
    else start_or_end_loop id lastKey is_start rest (i + dims)

/-- `config_utils.get_start_or_end_index(id, config, is_start)`. -/
def get_start_or_end_index (id : String) (config : Config)
    (is_start : Bool) : Except PyErr (Option Nat) :=
  start_or_end_loop id (config.map Prod.fst).getLast? is_start config 0

/-- `config_utils.get_start_index`. -/
def get_start_index (id : String) (config : Config) : Except PyErr (Option Nat) :=
  get_start_or_end_index id config true

/-- `config_utils.get_stop_index`. -/
def get_stop_index (id : String) (config : Config) : Except PyErr (Option Nat) :=
  get_start_or_end_index id config false

/-- A list whose `getLast?` is `some a` contains `a`. -/
theorem mem_of_getLast?_eq_some {α : Type} {l : List α} {a : α}
    (h : l.getLast? = some a) : a ∈ l := by
  obtain ⟨hne, ha⟩ := List.mem_getLast?_eq_getLast (Option.mem_def.mpr h)
  rw [ha]; exact List.getLast_mem hne

/-- If the looked-up name is absent from the remaining entries but the
recorded last key is among them, the loop raises `IndexError`. -/
theorem start_or_end_loop_absent (id : String) (b : Bool) (lk : String) :
    ∀ (entries : Config) (i : Nat),
      id ∉ entries.map Prod.fst → lk ∈ entries.map Prod.fst →
      start_or_end_loop id (some lk) b entries i = .error .indexError := by
  intro entries
  induction entries with
  | nil => intro i _ hmem; simp at hmem
  | cons e rest ih =>
    intro i habs hmem
    obtain ⟨key, dims⟩ := e
    simp only [List.map_cons, List.mem_cons] at habs hmem
    push_neg at habs
    rw [start_or_end_loop]
    rw [if_neg (by simpa using fun h => habs.1 h.symm)]
    rcases hmem with hlk | hlk
    · rw [if_pos (by simp [hlk])]
    · by_cases hkey : key = lk
      · rw [if_pos (by simp [hkey])]
      · rw [if_neg (by simp [hkey])]
        exact ih (i + dims) habs.2 hlk

/-- If the looked-up name is present, the keys are pairwise distinct and the
recorded last key is the genuine last key, the loop returns an index. -/
theorem start_or_end_loop_present (id : String) (b : Bool) :
    ∀ (entries : Config) (i : Nat) (lk : String),
      id ∈ entries.map Prod.fst → (entries.map Prod.fst).Nodup →
      (entries.map Prod.fst).getLast? = some lk →
      ∃ n, start_or_end_loop id (some lk) b entries i = .ok (some n) := by
  intro entries
  induction entries with
  | nil => intro i lk hmem; simp at hmem
  | cons e rest ih =>
    intro i lk hmem hnodup hlast
    obtain ⟨key, dims⟩ := e
    simp only [List.map_cons, List.mem_cons] at hmem
    by_cases hkey : key = id
    · exact ⟨if b then i else i + dims, by rw [start_or_end_loop, if_pos hkey]⟩
    · have hid : id ∈ rest.map Prod.fst := by
        rcases hmem with h | h
        · exact absurd h.symm hkey
        · exact h
      have hrest : rest.map Prod.fst ≠ [] := List.ne_nil_of_mem hid
      obtain ⟨a, t, ht⟩ := List.exists_cons_of_ne_nil hrest
      have hlast2 : (rest.map Prod.fst).getLast? = some lk := by
        rw [List.map_cons, ht, List.getLast?_cons_cons] at hlast
        rw [ht]; exact hlast
      have hlkmem : lk ∈ rest.map Prod.fst := mem_of_getLast?_eq_some hlast2
      have hkeylk : key ≠ lk := by
        intro h
        rw [List.map_cons] at hnodup
        exact (List.nodup_cons.mp hnodup).1 (h ▸ hlkmem)
      obtain ⟨n, hn⟩ := ih (i + dims) lk hid
        (List.nodup_cons.mp (by rw [List.map_cons] at hnodup; exact hnodup)).2 hlast2
      refine ⟨n, ?_⟩
      rw [start_or_end_loop, if_neg hkey, if_neg (by simpa using hkeylk)]
      exact hn

/-- C9 (counterexample): on the empty configuration — which contains no
name at all — the index lookup for an absent name returns Python `None`
successfully instead of failing, refuting the claim as universally stated
over every configuration. -/
theorem C9_counterexample :
    get_start_index "a" ([] : Config) = .ok none ∧
    get_stop_index "a" ([] : Config) = .ok none :=
  ⟨rfl, rfl⟩

/-- C9 (amended): for every nonempty configuration with pairwise-distinct
field names (as Python dict keys are), looking up the start or stop index of
a name absent from the configuration raises `IndexError` — the code's
realization of the spec's `UnknownFieldError` — rather than returning an
index, and looking up a present name returns an index without error. -/
theorem C9_index_lookup (id : String) (config : Config) (b : Bool)
    (hne : config ≠ []) (hnodup : (config.map Prod.fst).Nodup) :
    (id ∉ config.map Prod.fst →
      get_start_or_end_index id config b = .error .indexError) ∧
    (id ∈ config.map Prod.fst →
      ∃ n, get_start_or_end_index id config b = .ok (some n)) := by
  have hmapne : config.map Prod.fst ≠ [] := by
    intro h; exact hne (List.map_eq_nil_iff.mp h)
  obtain ⟨a, t, ht⟩ := List.exists_cons_of_ne_nil hmapne
  have hlast : ∃ lk, (config.map Prod.fst).getLast? = some lk := by
    exact ⟨(config.map Prod.fst).getLast hmapne,
      List.getLast?_eq_getLast_of_ne_nil hmapne⟩
  obtain ⟨lk, hlk⟩ := hlast
  constructor
  · intro habs
    rw [get_start_or_end_index, hlk]
    exact start_or_end_loop_absent id b lk config 0 habs
      (mem_of_getLast?_eq_some hlk)
  · intro hpres
    rw [get_start_or_end_index, hlk]
    exact start_or_end_loop_present id b config 0 lk hpres hnodup hlk

/-- C9 (witness): on the concrete two-field configuration
`{"m" : 1, "a" : 3}`, looking up the present name `"a"` returns an index. -/
theorem C9_witness :
    ∃ n, get_start_or_end_index "a" [("m", 1), ("a", 3)] true = .ok (some n) :=
  (C9_index_lookup "a" [("m", 1), ("a", 3)] true (by simp) (by simp)).2 (by simp)

/-- C10: `get_dimensions` passes its arguments to `get_sub_config` in
swapped order, so for every name and every configuration — including ones
containing the name — the call raises (`AttributeError`: `.items()` on a
`str`) and never returns a dimension count. -/
theorem C10_get_dimensions_always_raises (id : String) (config : Config) :
    get_dimensions id config = .error .attributeError := rfl

/-! ## Multiple-shooting solution layout and extraction (`mpc.py`) -/

/-- Python slice `v[a:b]` for `0 ≤ a ≤ b` (the only slices taken here). -/
def pySlice {α : Type} (v : List α) (a b : Nat) : List α :=
  (v.drop a).take (b - a)

/-- The tail of the decision vector after the initial state: the per-step
blocks `u_0, x_1, u_1, x_2, …, u_{N-1}, x_N`, given as the list of pairs
`(u_k, x_{k+1})`. -/
def layoutRest {α : Type} : List (List α × List α) → List α
  | [] => []
  | (u, x) :: ps => u ++ x ++ layoutRest ps

/-- The flat decision/solution vector laid out by the builder:
`d = [x0, u0, x1, u1, …, u_{N-1}, xN]`. -/
def solLayout {α : Type} (x0 : List α) (ps : List (List α × List α)) : List α :=
  x0 ++ layoutRest ps

/-- `NMPC.get_predicted_states`: for `k = 1 … N` slice
`sol[k*(nx+nu) : k*(nx+nu) + nx]` (written here with `k = j + 1`,
`j = 0 … N-1`). -/
def getPredictedStates {α : Type} (sol : List α) (nx nu N : Nat) :
    List (List α) :=
  (List.range N).map (fun j =>
    pySlice sol ((j + 1) * (nx + nu)) ((j + 1) * (nx + nu) + nx))

/-- `NMPC.get_predicted_inputs`: for `k = 0 … N-1` slice
`sol[(k+1)*nx + k*nu : (k+1)*nx + (k+1)*nu]`. -/
def getPredictedInputs {α : Type} (sol : List α) (nx nu N : Nat) :
    List (List α) :=
  (List.range N).map (fun k =>
    pySlice sol ((k + 1) * nx + k * nu) ((k + 1) * nx + (k + 1) * nu))

theorem layoutRest_cons {α : Type} (u x : List α) (ps : List (List α × List α)) :
    layoutRest ((u, x) :: ps) = u ++ solLayout x ps := by
  simp [layoutRest, solLayout]

/-- Slicing the layout at the state offset of step `j` recovers `x_{j+1}`. -/
theorem pySlice_layout_state {α : Type} (nx nu : Nat) :
    ∀ (ps : List (List α × List α)) (x0 : List α) (j : Nat)
      (hx0 : x0.length = nx)
      (hps : ∀ p ∈ ps, (p.1.length = nu ∧ p.2.length = nx))
      (hj : j < ps.length),
      pySlice (solLayout x0 ps) ((j + 1) * (nx + nu))
          ((j + 1) * (nx + nu) + nx) =
        (ps.getD j ([], [])).2 := by
  intro ps
  induction ps with
  | nil => intro x0 j _ _ hj; simp at hj
  | cons p tl ih =>
    intro x0 j hx0 hps hj
    obtain ⟨u, x⟩ := p
    have hu : u.length = nu := (hps (u, x) (List.mem_cons_self _ _)).1
    have hx : x.length = nx := (hps (u, x) (List.mem_cons_self _ _)).2
    have hbig : solLayout x0 ((u, x) :: tl) = (x0 ++ u) ++ solLayout x tl := by
      rw [solLayout, layoutRest_cons, List.append_assoc]
    match j with
    | 0 =>
      rw [pySlice, Nat.add_sub_cancel_left, hbig]
      rw [show (0 + 1) * (nx + nu) = (x0 ++ u).length by
        simp only [List.length_append, hx0, hu]; ring]
      rw [List.drop_left, solLayout, ← hx, List.take_left]
      simp
    | j + 1 =>
      rw [pySlice, Nat.add_sub_cancel_left, hbig]
      have hdrop : (j + 1 + 1) * (nx + nu) =
          (x0 ++ u).length + (j + 1) * (nx + nu) := by
        simp only [List.length_append, hx0, hu]; ring
      rw [hdrop, ← List.drop_drop, List.drop_left]
      have hmain := ih x j hx (fun p hp => hps p (List.mem_cons_of_mem _ hp))
        (by simpa using hj)
      rw [pySlice, Nat.add_sub_cancel_left] at hmain
      simpa using hmain

/-- Slicing the layout at the input offset of step `k` recovers `u_k`. -/
theorem pySlice_layout_input {α : Type} (nx nu : Nat) :
    ∀ (ps : List (List α × List α)) (x0 : List α) (k : Nat)
      (hx0 : x0.length = nx)
      (hps : ∀ p ∈ ps, (p.1.length = nu ∧ p.2.length = nx))
      (hk : k < ps.length),
      pySlice (solLayout x0 ps) ((k + 1) * nx + k * nu)
          ((k + 1) * nx + (k + 1) * nu) =
        (ps.getD k ([], [])).1 := by
  intro ps
  induction ps with
  | nil => intro x0 k _ _ hk; simp at hk
  | cons p tl ih =>
    intro x0 k hx0 hps hk
    obtain ⟨u, x⟩ := p
    have hu : u.length = nu := (hps (u, x) (List.mem_cons_self _ _)).1
    have hx : x.length = nx := (hps (u, x) (List.mem_cons_self _ _)).2
    match k with
    | 0 =>
      rw [pySlice]
      rw [show (0 + 1) * nx + (0 + 1) * nu = ((0 + 1) * nx + 0 * nu) + nu by ring]
      rw [Nat.add_sub_cancel_left]
      rw [show (0 + 1) * nx + 0 * nu = x0.length by rw [hx0]; ring]
      rw [solLayout, layoutRest_cons, List.drop_left, ← hu, List.take_left]
      simp
    | k + 1 =>
      have hbig : solLayout x0 ((u, x) :: tl) = (x0 ++ u) ++ solLayout x tl := by
        rw [solLayout, layoutRest_cons, List.append_assoc]
      rw [pySlice]
      rw [show (k + 1 + 1) * nx + (k + 1 + 1) * nu =
        ((k + 1 + 1) * nx + (k + 1) * nu) + nu by ring]
      rw [Nat.add_sub_cancel_left, hbig]
      have hdrop : (k + 1 + 1) * nx + (k + 1) * nu =
          (x0 ++ u).length + ((k + 1) * nx + k * nu) := by
        simp only [List.length_append, hx0, hu]; ring
      rw [hdrop, ← List.drop_drop, List.drop_left]
      have hmain := ih x k hx (fun p hp => hps p (List.mem_cons_of_mem _ hp))
        (by simpa using hk)
      rw [pySlice] at hmain
      rw [show (k + 1) * nx + (k + 1) * nu = ((k + 1) * nx + k * nu) + nu by ring]
        at hmain
      rw [Nat.add_sub_cancel_left] at hmain
      simpa using hmain

/-- C4: for every solution vector laid out as the builder's interleaving
`d = [x0, u0, x1, u1, …, u_{N-1}, xN]` (stride `nx + nu` per step),
`get_predicted_states` returns exactly `x_1, …, x_N` in order,
`get_predicted_inputs` returns exactly `u_0, …, u_{N-1}` in order, and each
returned sequence has exactly `N` elements. -/
theorem C4_extraction_inverts_interleaving {α : Type} (nx nu : Nat)
    (x0 : List α) (ps : List (List α × List α))
    (hx0 : x0.length = nx)
    (hps : ∀ p ∈ ps, (p.1.length = nu ∧ p.2.length = nx)) :
    getPredictedStates (solLayout x0 ps) nx nu ps.length = ps.map Prod.snd ∧
    getPredictedInputs (solLayout x0 ps) nx nu ps.length = ps.map Prod.fst ∧
    (getPredictedStates (solLayout x0 ps) nx nu ps.length).length = ps.length ∧
    (getPredictedInputs (solLayout x0 ps) nx nu ps.length).length = ps.length := by
  have hstates :
      getPredictedStates (solLayout x0 ps) nx nu ps.length = ps.map Prod.snd := by
    apply List.ext_getElem
    · simp [getPredictedStates]
    · intro j h1 h2
      simp only [getPredictedStates, List.getElem_map, List.getElem_range]
      rw [pySlice_layout_state nx nu ps x0 j hx0 hps (by simpa using h2)]
      simp [List.getD_eq_getElem?_getD, List.getElem?_eq_getElem (by simpa using h2)]
  have hinputs :
      getPredictedInputs (solLayout x0 ps) nx nu ps.length = ps.map Prod.fst := by
    apply List.ext_getElem
    · simp [getPredictedInputs]
    · intro k h1 h2
      simp only [getPredictedInputs, List.getElem_map, List.getElem_range]
      rw [pySlice_layout_input nx nu ps x0 k hx0 hps (by simpa using h2)]
      simp [List.getD_eq_getElem?_getD, List.getElem?_eq_getElem (by simpa using h2)]
  exact ⟨hstates, hinputs, by simp [hstates], by simp [hinputs]⟩

/-- C4 (witness): the extraction round-trip evaluated on a concrete layout
with `nx = 2`, `nu = 1`, `N = 2`. -/
theorem C4_witness :
    ([0, 1] : List Nat).length = 2 ∧
    getPredictedStates (solLayout [0, 1] [([10], [2, 3]), ([20], [4, 5])]) 2 1 2 =
      [[2, 3], [4, 5]] ∧
    getPredictedInputs (solLayout [0, 1] [([10], [2, 3]), ([20], [4, 5])]) 2 1 2 =
      [[10], [20]] := by
  refine ⟨by decide, ?_, ?_⟩
  · exact (C4_extraction_inverts_interleaving 2 1 [0, 1]
      [([10], [2, 3]), ([20], [4, 5])] (by decide) (by decide)).1
  · exact (C4_extraction_inverts_interleaving 2 1 [0, 1]
      [([10], [2, 3]), ([20], [4, 5])] (by decide) (by decide)).2.1

/-! ## `NMPC.solve` (`mpc.py`): horizon check and frame effect -/

/-- A numeric vector (a flat numpy array / casadi DM). -/
abbrev Vec := List ℝ

/-- The arguments `solve` hands to the compiled NLP solver:
`self._solver(x0=guess, p=p, lbx=lbd, ubx=ubd, lbg=self._lbg, ubg=self._ubg)`. -/
structure SolverIn where
  x0 : Vec
  p : Vec
  lbx : Vec
  ubx : Vec
  lbg : Vec
  ubg : Vec

/-- What the external solver returns: the flat solution vector `"x"` plus
opaque diagnostics, passed through unreinterpreted. -/
structure SolverResult where
  x : Vec
  diagnostics : String

/-- The stored `self._sol` after a solve: the solver's dict with the
measured `"solve_time"` attached. -/
structure StoredSol where
  result : SolverResult
  solve_time : ℝ

/-- The instance state of an `NMPC` object: every attribute assigned in
`__init__` (the compiled solver is passed separately to `solve`, mirroring
the read of `self._solver`). -/
structure NMPC where
  dt : ℝ
  N : Nat
  Q : List (List ℝ)
  R : List (List ℝ)
  Qf : List (List ℝ)
  isKoopman : Bool
  lbx : Vec
  ubx : Vec
  lbu : Vec
  ubu : Vec
  theta : Vec
  usGuess : List Vec
  lbg : Vec
  ubg : Vec
  sol : Option StoredSol

/-- The `x` argument of `solve`: a `State` or `KoopmanLiftedState` entity;
`isKoopman` records its runtime type and `zeroOrder` its
`get_zero_order_array()`. -/
structure StateArg where
  isKoopman : Bool
  vals : Vec
  zeroOrder : Vec

/-- `NMPC.solve`: asserts the horizon length, fills unsupplied bounds,
parameters and guesses from the instance defaults, assembles the parameter
vector and box bounds, invokes the external solver, and stores its output
with the measured solve time attached.  `solveTime` stands for the measured
wall-clock duration `et - st`. -/
def NMPC.solve (solver : SolverIn → SolverResult) (s : NMPC)
    (x : StateArg) (xref uref : List Vec)
    (otheta : Option Vec) (olbx oubx olbu oubu : Option Vec)
    (oxsGuess ousGuess : Option (List Vec)) (solveTime : ℝ) :
    Except PyErr NMPC :=
  if hlen : xref.length = uref.length ∧ uref.length = s.N then
    let lbxv := olbx.getD s.lbx
    let ubxv := oubx.getD s.ubx
    let lbuv := olbu.getD s.lbu
    let ubuv := oubu.getD s.ubu
    let thetav := otheta.getD s.theta
    let usGuessv := ousGuess.getD s.usGuess
    let xsGuessv := oxsGuess.getD (List.replicate s.N x.vals)
    if x.isKoopman = s.isKoopman then
      let p0 := thetav ++ (if s.isKoopman then x.zeroOrder else [])
      let lbd := x.vals ++ (List.range s.N).flatMap (fun _ => lbuv ++ lbxv)
      let ubd := x.vals ++ (List.range s.N).flatMap (fun _ => ubuv ++ ubxv)
      let guess := x.vals ++ (List.range s.N).flatMap
        (fun k => usGuessv.getD k [] ++ xsGuessv.getD k [])
      let p := p0 ++ (List.range s.N).flatMap
        (fun k => uref.getD k [] ++ xref.getD k [])
      let out := solver ⟨guess, p, lbd, ubd, s.lbg, s.ubg⟩
      .ok { s with sol := some ⟨out, solveTime⟩ }
    else .error .assertionError
  else .error .assertionError

/-- C5: when the reference sequences do not both have length `N`, `solve`
fails with the horizon-mismatch assertion (`HorizonMismatchError`) for every
possible external solver — the same error regardless of the solver, so the
solver is never invoked on that path. -/
theorem C5_horizon_mismatch (s : NMPC) (x : StateArg) (xref uref : List Vec)
    (otheta olbx oubx olbu oubu : Option Vec)
    (oxsGuess ousGuess : Option (List Vec)) (solveTime : ℝ)
    (hmis : ¬(xref.length = uref.length ∧ uref.length = s.N)) :
    ∀ solver solver2 : SolverIn → SolverResult,
      NMPC.solve solver s x xref uref otheta olbx oubx olbu oubu
          oxsGuess ousGuess solveTime = .error .assertionError ∧
      NMPC.solve solver s x xref uref otheta olbx oubx olbu oubu
          oxsGuess ousGuess solveTime =
        NMPC.solve solver2 s x xref uref otheta olbx oubx olbu oubu
          oxsGuess ousGuess solveTime := by
  intro solver solver2
  constructor
  · rw [NMPC.solve, dif_neg hmis]
  · rw [NMPC.solve, dif_neg hmis, NMPC.solve, dif_neg hmis]

/-- C5 (witness): a concrete `solve` call with horizon `N = 1` and empty
reference sequences fails with the assertion error. -/
theorem C5_witness :
    ¬(([] : List Vec).length = ([] : List Vec).length ∧
        ([] : List Vec).length = 1) ∧
    NMPC.solve (fun _ => ⟨[], ""⟩)
        ⟨0.1, 1, [], [], [], false, [], [], [], [], [], [], [], [], none⟩
        ⟨false, [2], [2]⟩ [] [] none none none none none none none 0 =
      .error .assertionError := by
  refine ⟨by simp, ?_⟩
  exact (C5_horizon_mismatch _ _ _ _ _ _ _ _ _ _ _ _ (by simp) _ (fun _ => ⟨[], ""⟩)).1

/-- C8 (counterexample): a concrete successful `solve` call after which the
warm-start input guess is NOT updated: it still equals the value from
construction (`[[0]]`) and differs from the input block `[7]` of the
newly returned solution, refuting the part of the claim that says the
warm-start state is mutated by the call. -/
theorem C8_counterexample :
    ∃ res : NMPC,
      NMPC.solve (fun _ => ⟨[5, 7, 3], "ok"⟩)
          ⟨0.1, 1, [], [], [], false, [9], [9], [9], [9], [4], [[0]], [0], [0], none⟩
          ⟨false, [5], [5]⟩ [[1]] [[1]] none none none none none none none 0.25 =
        .ok res ∧
      res.usGuess =
        (⟨0.1, 1, [], [], [], false, [9], [9], [9], [9], [4], [[0]], [0], [0],
          none⟩ : NMPC).usGuess ∧
      res.sol = some ⟨⟨[5, 7, 3], "ok"⟩, 0.25⟩ ∧
      res.usGuess ≠ [[7]] := by
  refine ⟨_, rfl, rfl, rfl, by simp⟩

/-- C8 (amended): every successful call to `NMPC.solve` mutates exactly the
instance's last-solution state — the stored solution is replaced by the new
solver output with the measured solve time attached — while the warm-start
input guess and every other instance field (horizon, step size, cost
matrices, default bounds, stored parameters, equality-constraint bounds) are
left unchanged. -/
theorem C8_solve_frame (solver : SolverIn → SolverResult) (s : NMPC)
    (x : StateArg) (xref uref : List Vec)
    (otheta olbx oubx olbu oubu : Option Vec)
    (oxsGuess ousGuess : Option (List Vec)) (solveTime : ℝ)
    (hlen : xref.length = uref.length ∧ uref.length = s.N)
    (hty : x.isKoopman = s.isKoopman) :
    ∃ (res : NMPC) (out : SolverResult),
      NMPC.solve solver s x xref uref otheta olbx oubx olbu oubu
          oxsGuess ousGuess solveTime = .ok res ∧
      res.sol = some ⟨out, solveTime⟩ ∧
      res.dt = s.dt ∧ res.N = s.N ∧ res.Q = s.Q ∧ res.R = s.R ∧
      res.Qf = s.Qf ∧ res.isKoopman = s.isKoopman ∧
      res.lbx = s.lbx ∧ res.ubx = s.ubx ∧ res.lbu = s.lbu ∧
      res.ubu = s.ubu ∧ res.theta = s.theta ∧ res.usGuess = s.usGuess ∧
      res.lbg = s.lbg ∧ res.ubg = s.ubg := by
  rw [NMPC.solve, dif_pos hlen, if_pos hty]
  exact ⟨_, _, rfl, rfl, rfl, rfl, rfl, rfl, rfl, rfl, rfl, rfl, rfl, rfl,
    rfl, rfl, rfl, rfl⟩

/-- C8 (witness): the frame property applied to a concrete successful
call. -/
theorem C8_witness :
    ∃ (res : NMPC) (out : SolverResult),
      NMPC.solve (fun _ => ⟨[5, 7, 3], "ok"⟩)
          ⟨0.1, 1, [], [], [], false, [9], [9], [9], [9], [4], [[0]], [0], [0], none⟩
          ⟨false, [5], [5]⟩ [[1]] [[1]] none none none none none none none 0.25 =
        .ok res ∧
      res.sol = some ⟨out, 0.25⟩ ∧
      res.dt = 0.1 ∧ res.N = 1 ∧ res.Q = [] ∧ res.R = [] ∧
      res.Qf = [] ∧ res.isKoopman = false ∧
      res.lbx = [9] ∧ res.ubx = [9] ∧ res.lbu = [9] ∧
      res.ubu = [9] ∧ res.theta = [4] ∧ res.usGuess = [[0]] ∧
      res.lbg = [0] ∧ res.ubg = [0] :=
  C8_solve_frame (fun _ => ⟨[5, 7, 3], "ok"⟩)
    ⟨0.1, 1, [], [], [], false, [9], [9], [9], [9], [4], [[0]], [0], [0], none⟩
    ⟨false, [5], [5]⟩ [[1]] [[1]] none none none none none none none 0.25
    (by simp) rfl

/-! ## Objective assembly (`NMPC._init_solver`, `_get_stage_cost`,
`_get_terminal_cost`) -/

/-- `NMPC._get_stage_cost(x, u, xref, uref)`:
`(x-xref)^T Q (x-xref) + (u-uref)^T R (u-uref)`. -/
def get_stage_cost {nx nu : Nat} (Q : Matrix (Fin nx) (Fin nx) ℝ)
    (R : Matrix (Fin nu) (Fin nu) ℝ) (x : Fin nx → ℝ) (u : Fin nu → ℝ)
    (xref : Fin nx → ℝ) (uref : Fin nu → ℝ) : ℝ :=
  Matrix.dotProduct (x - xref) (Q.mulVec (x - xref)) +
    Matrix.dotProduct (u - uref) (R.mulVec (u - uref))

/-- `NMPC._get_terminal_cost(x, xref)`: `(x-xref)^T (Qf - Q) (x-xref)`. -/
def get_terminal_cost {nx : Nat} (Q Qf : Matrix (Fin nx) (Fin nx) ℝ)
    (x xref : Fin nx → ℝ) : ℝ :=
  Matrix.dotProduct (x - xref) ((Qf - Q).mulVec (x - xref))

/-- The objective assembled by the loop of `NMPC._init_solver`: starting
from `J = 0.0`, step `k` adds the stage cost of `x_{k+1}` (the decision
variable introduced for the end of interval `k`) against `xref_{k+1}` and of
`u_k` against `uref_k`, and at `k = N-1` additionally adds the terminal
cost.  `xs k` denotes the decision variable `x_k`, `xref k` the reference
constant `xref_k` (defined for `k = 1 … N`), `us k` and `uref k` likewise
for `k = 0 … N-1`. -/
def builtObjective {nx nu : Nat} (N : Nat) (Q Qf : Matrix (Fin nx) (Fin nx) ℝ)
    (R : Matrix (Fin nu) (Fin nu) ℝ) (xs xref : Nat → Fin nx → ℝ)
    (us uref : Nat → Fin nu → ℝ) : ℝ :=
  (List.range N).foldl (fun J k =>
    let J1 := J + get_stage_cost Q R (xs (k + 1)) (us k) (xref (k + 1)) (uref k)
    if k = N - 1 then J1 + get_terminal_cost Q Qf (xs (k + 1)) (xref (k + 1))
    else J1) 0

/-- The objective as the specification formula writes it: the sum of the
stage costs over `k = 0 … N-1` plus the `(Qf - Q)`-weighted terminal
term. -/
def specObjective {nx nu : Nat} (N : Nat) (Q Qf : Matrix (Fin nx) (Fin nx) ℝ)
    (R : Matrix (Fin nu) (Fin nu) ℝ) (xs xref : Nat → Fin nx → ℝ)
    (us uref : Nat → Fin nu → ℝ) : ℝ :=
  (∑ k ∈ Finset.range N,
    get_stage_cost Q R (xs (k + 1)) (us k) (xref (k + 1)) (uref k)) +
  get_terminal_cost Q Qf (xs N) (xref N)

/-- The objective with the final tracking error weighted directly by `Qf`
instead of `Q`: what "the last step effectively uses `Qf` total" means. -/
def qfWeightedObjective {nx nu : Nat} (N : Nat)
    (Q Qf : Matrix (Fin nx) (Fin nx) ℝ) (R : Matrix (Fin nu) (Fin nu) ℝ)
    (xs xref : Nat → Fin nx → ℝ) (us uref : Nat → Fin nu → ℝ) : ℝ :=
  ∑ k ∈ Finset.range N,
    (Matrix.dotProduct (xs (k + 1) - xref (k + 1))
        ((if k = N - 1 then Qf else Q).mulVec (xs (k + 1) - xref (k + 1))) +
      Matrix.dotProduct (us k - uref k) (R.mulVec (us k - uref k)))

/-- A left fold that only accumulates sums over `List.range` is the sum. -/
theorem foldl_add_range (f : Nat → ℝ) (N : Nat) :
    ∀ a : ℝ, (List.range N).foldl (fun J k => J + f k) a =
      a + ∑ k ∈ Finset.range N, f k := by
  induction N with
  | zero => intro a; simp
  | succ n ih =>
    intro a
    rw [List.range_succ, List.foldl_append, ih, Finset.sum_range_succ]
    simp [add_assoc]

/-- C6: in the objective assembled at construction, the tracking error of
the final predicted state is weighted in total by `Qf`: the objective equals
the sum over `k = 0 … N-1` of the `Q`/`R` stage costs of `(x_{k+1}, u_k)`
plus the terminal term `(x_N - xref_N)^T (Qf - Q) (x_N - xref_N)`; it
equals the same sum with the final state error weighted by `Qf` outright;
and the initial state `x_0` does not appear in it (replacing `xs 0` changes
nothing). -/
theorem C6_terminal_weighting {nx nu : Nat} (N : Nat)
    (Q Qf : Matrix (Fin nx) (Fin nx) ℝ) (R : Matrix (Fin nu) (Fin nu) ℝ)
    (xs xref : Nat → Fin nx → ℝ) (us uref : Nat → Fin nu → ℝ)
    (hN : 0 < N) :
    builtObjective N Q Qf R xs xref us uref =
      specObjective N Q Qf R xs xref us uref ∧
    builtObjective N Q Qf R xs xref us uref =
      qfWeightedObjective N Q Qf R xs xref us uref ∧
    (∀ g : Fin nx → ℝ,
      builtObjective N Q Qf R (Function.update xs 0 g) xref us uref =
        builtObjective N Q Qf R xs xref us uref) := by
  have hbody : builtObjective N Q Qf R xs xref us uref =
      (List.range N).foldl (fun J k => J +
        (get_stage_cost Q R (xs (k + 1)) (us k) (xref (k + 1)) (uref k) +
          if k = N - 1 then get_terminal_cost Q Qf (xs (k + 1)) (xref (k + 1))
          else 0)) 0 := by
    rw [builtObjective]
    congr 1
    funext J k
    by_cases h : k = N - 1 <;> simp [h] <;> ring
  have hsum : builtObjective N Q Qf R xs xref us uref =
      ∑ k ∈ Finset.range N,
        (get_stage_cost Q R (xs (k + 1)) (us k) (xref (k + 1)) (uref k) +
          if k = N - 1 then get_terminal_cost Q Qf (xs (k + 1)) (xref (k + 1))
          else 0) := by
    rw [hbody, foldl_add_range, zero_add]
  have hNmem : N - 1 ∈ Finset.range N := by
    simp only [Finset.mem_range]; omega
  have hsucc : N - 1 + 1 = N := by omega
  have hterm : (∑ k ∈ Finset.range N,
      (if k = N - 1 then get_terminal_cost Q Qf (xs (k + 1)) (xref (k + 1))
        else 0)) = get_terminal_cost Q Qf (xs N) (xref N) := by
    rw [Finset.sum_eq_single (N - 1)]
    · rw [if_pos rfl, hsucc]
    · intro a _ ha; rw [if_neg ha]
    · intro h; exact absurd hNmem h
  have hspec : builtObjective N Q Qf R xs xref us uref =
      specObjective N Q Qf R xs xref us uref := by
    rw [hsum, Finset.sum_add_distrib, specObjective, hterm]
  refine ⟨hspec, ?_, ?_⟩
  · have hqf : specObjective N Q Qf R xs xref us uref =
        qfWeightedObjective N Q Qf R xs xref us uref := by
      rw [specObjective, qfWeightedObjective, ← hterm, ← Finset.sum_add_distrib]
      apply Finset.sum_congr rfl
      intro k _
      by_cases h : k = N - 1
      · rw [if_pos h, if_pos h, get_stage_cost, get_terminal_cost]
        have hv : Matrix.dotProduct (xs (k + 1) - xref (k + 1))
              (Q.mulVec (xs (k + 1) - xref (k + 1))) +
            Matrix.dotProduct (xs (k + 1) - xref (k + 1))
              ((Qf - Q).mulVec (xs (k + 1) - xref (k + 1))) =
            Matrix.dotProduct (xs (k + 1) - xref (k + 1))
              (Qf.mulVec (xs (k + 1) - xref (k + 1))) := by
          rw [← Matrix.dotProduct_add, ← Matrix.add_mulVec]
          rw [show Q + (Qf - Q) = Qf from by abel]
        linarith [hv]
      · rw [if_neg h, if_neg h, get_stage_cost, add_zero]
    rw [hspec, hqf]
  · intro g
    rfl

/-- C6 (witness): the terminal-weighting identity evaluated at a concrete
one-step problem with scalar weights. -/
theorem C6_witness :
    (0 : Nat) < 1 ∧
    @builtObjective 1 1 1 !![2] !![3] !![5] (fun _ _ => 1) (fun _ _ => 0)
        (fun _ _ => 1) (fun _ _ => 0) =
      @specObjective 1 1 1 !![2] !![3] !![5] (fun _ _ => 1) (fun _ _ => 0)
        (fun _ _ => 1) (fun _ _ => 0) :=
  ⟨by decide,
    (C6_terminal_weighting 1 !![2] !![3] !![5] (fun _ _ => 1) (fun _ _ => 0)
      (fun _ _ => 1) (fun _ _ => 0) (by decide)).1⟩

/-! ## `DynamicsModel.f` input clipping (`par/dynamics/models.py`) -/

/-- `np.clip(u, lo, hi)`: element-wise `minimum(maximum(u, lo), hi)`. -/
def npclip (v lo hi : Vec) : Vec :=
  List.zipWith min (List.zipWith max v lo) hi

/-- The `u` argument of `DynamicsModel.f`: either a numeric numpy array
(`type(u) == np.ndarray`) or a casadi symbolic expression, identified here
by its name. -/
inductive UInput where
  | ndarray (v : Vec)
  | sx (name : String)

/-- A `par.dynamics.models.DynamicsModel` as far as `f` is concerned: the
compiled continuous-time vector field `self._f` (a black-box casadi
`Function` accepting numeric or symbolic arguments), the immutable input
bounds `self._lbu`/`self._ubu`, the owned parameter vector (as an array)
and the process-noise dimension. -/
structure DynamicsModel where
  fcomp : Vec → UInput → Vec → Vec → Vec
  lbu : Vec
  ubu : Vec
  params : Vec
  nw : Nat

/-- `DynamicsModel.f(x, u, w, theta)`: defaults `theta` to the owned
parameter vector and `w` to zeros, clips `u` to `[lbu, ubu]` when and only
when `type(u) == np.ndarray`, and evaluates the compiled vector field. -/
def DynamicsModel.f (m : DynamicsModel) (x : Vec) (u : UInput)
    (w : Option Vec) (theta : Option Vec) : Vec :=
  let thetav := theta.getD m.params
  let wv := w.getD (List.replicate m.nw 0)
  let uv := match u with
    | .ndarray v => UInput.ndarray (npclip v m.lbu m.ubu)
    | .sx s => UInput.sx s
  m.fcomp x uv wv thetav

/-- Entry `i` of the clipped vector, when all three vectors cover it. -/
theorem npclip_getD (v lo hi : Vec) (i : Nat) (h1 : i < v.length)
    (h2 : i < lo.length) (h3 : i < hi.length) :
    (npclip v lo hi).getD i 0 =
      min (max (v.getD i 0) (lo.getD i 0)) (hi.getD i 0) := by
  have hlen : i < (npclip v lo hi).length := by
    simp only [npclip, List.length_zipWith]; omega
  rw [List.getD_eq_getElem _ _ hlen, List.getD_eq_getElem _ _ h1,
    List.getD_eq_getElem _ _ h2, List.getD_eq_getElem _ _ h3]
  simp [npclip]

/-- C7: for a numeric (ndarray) input `u`, `DynamicsModel.f` evaluates the
compiled vector field at `u` clipped element-wise to `[lbu, ubu]` — the
clipped entry lies inside the bounds whenever they are ordered, and `u` is
left unchanged when it is already inside them — while for a symbolic input
the compiled vector field is evaluated at `u` unmodified, with no
clipping. -/
theorem C7_numeric_input_clipped (m : DynamicsModel) (x : Vec)
    (w theta : Option Vec) :
    (∀ v : Vec, m.f x (.ndarray v) w theta =
      m.fcomp x (.ndarray (npclip v m.lbu m.ubu))
        (w.getD (List.replicate m.nw 0)) (theta.getD m.params)) ∧
    (∀ s : String, m.f x (.sx s) w theta =
      m.fcomp x (.sx s)
        (w.getD (List.replicate m.nw 0)) (theta.getD m.params)) ∧
    (∀ (v : Vec) (i : Nat), i < v.length → i < m.lbu.length →
      i < m.ubu.length → m.lbu.getD i 0 ≤ m.ubu.getD i 0 →
      m.lbu.getD i 0 ≤ (npclip v m.lbu m.ubu).getD i 0 ∧
        (npclip v m.lbu m.ubu).getD i 0 ≤ m.ubu.getD i 0) ∧
    (∀ v : Vec, v.length = m.lbu.length → v.length = m.ubu.length →
      (∀ i, i < v.length →
        m.lbu.getD i 0 ≤ v.getD i 0 ∧ v.getD i 0 ≤ m.ubu.getD i 0) →
      npclip v m.lbu m.ubu = v) := by
  refine ⟨fun v => rfl, fun s => rfl, ?_, ?_⟩
  · intro v i h1 h2 h3 hord
    rw [npclip_getD v m.lbu m.ubu i h1 h2 h3]
    constructor
    · exact le_min (le_max_right _ _) hord
    · exact min_le_right _ _
  · intro v hlo hhi hin
    apply List.ext_getElem
    · simp only [npclip, List.length_zipWith]; omega
    · intro i hni hvi
      have h2 : i < m.lbu.length := by omega
      have h3 : i < m.ubu.length := by omega
      have := npclip_getD v m.lbu m.ubu i hvi h2 h3
      rw [List.getD_eq_getElem _ _ hni, List.getD_eq_getElem _ _ hvi,
        List.getD_eq_getElem _ _ h2, List.getD_eq_getElem _ _ h3] at this
      rw [this]
      obtain ⟨hl, hr⟩ := hin i hvi
      rw [List.getD_eq_getElem _ _ hvi, List.getD_eq_getElem _ _ h2] at hl
      rw [List.getD_eq_getElem _ _ hvi, List.getD_eq_getElem _ _ h3] at hr
      rw [max_eq_left hl, min_eq_left hr]

/-- C7 (witness): the clipping behaviour on a concrete model with bounds
`[0, 2]` and numeric input `[3]`, where the compiled field returns its
(possibly clipped) input block. -/
theorem C7_witness :
    DynamicsModel.f
        ⟨fun _ u _ _ => match u with | .ndarray v => v | .sx _ => [], [0], [2],
          [1], 1⟩
        [] (.ndarray [3]) none none = [min (max (3 : ℝ) 0) 2] :=
  (C7_numeric_input_clipped
    ⟨fun _ u _ _ => match u with | .ndarray v => v | .sx _ => [], [0], [2],
      [1], 1⟩ [] none none).1 [3]

/-! ## Runge-Kutta integration (`rk4` in `par/models.py` and
`par/dynamics/models.py`) -/

/-- `DynamicsModel.rk4` of `par/models.py` (the legacy module): the
classical 4-stage explicit Runge-Kutta update
`x + dt/6 * (k1 + 2*k2 + 2*k3 + k4)`, returned as is — this variant
performs NO renormalization.  States are modelled as real-valued sequences
so the same integrator covers every state dimension. -/
noncomputable def rk4_models_py
    (f : (Nat → ℝ) → (Nat → ℝ) → (Nat → ℝ) → (Nat → ℝ) → Nat → ℝ)
    (dt : ℝ) (x u w theta : Nat → ℝ) : Nat → ℝ :=
  let k1 := f x u w theta
  let k2 := f (fun i => x i + dt / 2 * k1 i) u w theta
  let k3 := f (fun i => x i + dt / 2 * k2 i) u w theta
  let k4 := f (fun i => x i + dt * k3 i) u w theta
  fun i => x i + dt / 6 * (k1 i + 2 * k2 i + 2 * k3 i + k4 i)

/-- `cs.norm_2(x[3:7])`: the Euclidean norm of the attitude quaternion
sub-block, entries 3 to 6 of the state. -/
noncomputable def attNorm (v : Nat → ℝ) : ℝ :=
  Real.sqrt (v 3 ^ 2 + v 4 ^ 2 + v 5 ^ 2 + v 6 ^ 2)

/-- `DynamicsModel.rk4` of `par/dynamics/models.py`: the same 4-stage
update as `rk4_models_py`, followed by
`x_next[3:7] = x_next[3:7] / cs.norm_2(x_next[3:7])`. -/
noncomputable def rk4 (f : (Nat → ℝ) → (Nat → ℝ) → (Nat → ℝ) → (Nat → ℝ) → Nat → ℝ)
    (dt : ℝ) (x u w theta : Nat → ℝ) : Nat → ℝ :=
  let x_next := rk4_models_py f dt x u w theta
  fun i => if 3 ≤ i ∧ i < 7 then x_next i / attNorm x_next else x_next i

/-- C3 (counterexample): the claim fails in both cited `rk4` variants.
First, the `par/models.py` `rk4` does not renormalize: with the zero vector
field, a unit step maps the state with attitude block `(2,0,0,0)` (nonzero
norm) to itself, and the result's attitude norm is `2`, not `1`.  Second,
even the renormalizing `par/dynamics/models.py` `rk4` can return a
non-unit attitude block from a state whose attitude block has nonzero
norm: with the constant vector field `-(initial state)` and `dt = 1` the
4-stage update lands exactly on the zero state, whose attitude block
renormalizes to `0/0 = 0` with norm `0`, not `1`. -/
theorem C3_counterexample :
    (attNorm (fun i => if i = 3 then 2 else 0) ≠ 0 ∧
      attNorm (rk4_models_py (fun _ _ _ _ _ => 0) 1
        (fun i => if i = 3 then 2 else 0)
        (fun _ => 0) (fun _ => 0) (fun _ => 0)) ≠ 1) ∧
    (attNorm (fun i => if i = 3 then 1 else 0) ≠ 0 ∧
      attNorm (rk4 (fun _ _ _ _ i => if i = 3 then -1 else 0) 1
        (fun i => if i = 3 then 1 else 0)
        (fun _ => 0) (fun _ => 0) (fun _ => 0)) ≠ 1) := by
  have h4 : Real.sqrt 4 = 2 := by
    rw [show (4 : ℝ) = 2 ^ 2 by norm_num, Real.sqrt_sq (by norm_num)]
  constructor
  · constructor
    · rw [attNorm]; norm_num [h4]
    · rw [attNorm, rk4_models_py]; norm_num [h4]
  · constructor
    · rw [attNorm]; norm_num
    · rw [attNorm, rk4, rk4_models_py]
      norm_num [attNorm]

/-- C3 (amended): one RK4 step of the renormalizing `rk4` of
`par/dynamics/models.py` returns a state whose attitude sub-block (entries
3 to 6) has unit norm exactly, provided the attitude sub-block of the
4-stage update (before renormalization) has nonzero norm; the hypothesis on
the input state alone does not suffice, and the `rk4` of `par/models.py`
performs no renormalization at all. -/
theorem C3_rk4_unit_attitude_norm
    (f : (Nat → ℝ) → (Nat → ℝ) → (Nat → ℝ) → (Nat → ℝ) → Nat → ℝ)
    (dt : ℝ) (x u w theta : Nat → ℝ)
    (h : attNorm (rk4_models_py f dt x u w theta) ≠ 0) :
    attNorm (rk4 f dt x u w theta) = 1 := by
  set v := rk4_models_py f dt x u w theta with hv
  have hS : 0 ≤ v 3 ^ 2 + v 4 ^ 2 + v 5 ^ 2 + v 6 ^ 2 := by positivity
  have hnpos : 0 < attNorm v :=
    lt_of_le_of_ne (Real.sqrt_nonneg _) (Ne.symm h)
  have hr : attNorm (rk4 f dt x u w theta) =
      Real.sqrt ((v 3 / attNorm v) ^ 2 + (v 4 / attNorm v) ^ 2 +
        (v 5 / attNorm v) ^ 2 + (v 6 / attNorm v) ^ 2) := by
    rw [rk4, attNorm]
    norm_num
  rw [hr]
  have hSn : v 3 ^ 2 + v 4 ^ 2 + v 5 ^ 2 + v 6 ^ 2 = attNorm v ^ 2 := by
    rw [attNorm, Real.sq_sqrt hS]
  have hone : (v 3 / attNorm v) ^ 2 + (v 4 / attNorm v) ^ 2 +
      (v 5 / attNorm v) ^ 2 + (v 6 / attNorm v) ^ 2 = 1 := by
    field_simp
    linarith [hSn]
  rw [hone, Real.sqrt_one]

/-- C3 (witness): the renormalization property on a concrete step of the
zero vector field from the state with attitude block `(1,0,0,0)`. -/
theorem C3_witness :
    attNorm (rk4_models_py (fun _ _ _ _ _ => 0) 1
      (fun i => if i = 3 then 1 else 0)
      (fun _ => 0) (fun _ => 0) (fun _ => 0)) ≠ 0 ∧
    attNorm (rk4 (fun _ _ _ _ _ => 0) 1
      (fun i => if i = 3 then 1 else 0)
      (fun _ => 0) (fun _ => 0) (fun _ => 0)) = 1 := by
  have hne : attNorm (rk4_models_py (fun _ _ _ _ _ => 0) 1
      (fun i => if i = 3 then 1 else 0)
      (fun _ => 0) (fun _ => 0) (fun _ => 0)) ≠ 0 := by
    rw [attNorm, rk4_models_py]; norm_num
  exact ⟨hne, C3_rk4_unit_attitude_norm _ 1 _ _ _ _ hne⟩

/-! ## Quaternion kinematics (`par/quat.py`) -/

/-- `cs.skew(v)`: the cross-product matrix of a 3-vector. -/
def skew (v : Fin 3 → ℝ) : Matrix (Fin 3) (Fin 3) ℝ :=
  !![0, -v 2, v 1; v 2, 0, -v 0; -v 1, v 0, 0]

/-- `quat.L_or_R(q, is_L)`: the 4x4 left/right quaternion-multiplication
operator, `vertcat(horzcat(scalar, -vector.T), horzcat(vector,
scalar*I + sign*skew(vector)))` with `sign = +1` for `L` and `-1` for
`R`. -/
def L_or_R (q : Fin 4 → ℝ) (is_L : Bool) : Matrix (Fin 4) (Fin 4) ℝ :=
  let sign : ℝ := if is_L then 1 else -1
  let M : Matrix (Fin 3) (Fin 3) ℝ :=
    q 0 • (1 : Matrix (Fin 3) (Fin 3) ℝ) + sign • skew ![q 1, q 2, q 3]
  !![q 0, -q 1, -q 2, -q 3;
     q 1, M 0 0, M 0 1, M 0 2;
     q 2, M 1 0, M 1 1, M 1 2;
     q 3, M 2 0, M 2 1, M 2 2]

/-- `quat.L`. -/
def L (q : Fin 4 → ℝ) : Matrix (Fin 4) (Fin 4) ℝ := L_or_R q true

/-- `quat.R`. -/
def R (q : Fin 4 → ℝ) : Matrix (Fin 4) (Fin 4) ℝ := L_or_R q false

/-- `quat.H`: `vstack(zeros(1,3), eye(3))`. -/
def H : Matrix (Fin 4) (Fin 3) ℝ := !![0, 0, 0; 1, 0, 0; 0, 1, 0; 0, 0, 1]

/-- `quat.G(q) = L(q) @ H`. -/
def G (q : Fin 4 → ℝ) : Matrix (Fin 4) (Fin 3) ℝ := L q * H

/-- `quat.Q(q) = H.T @ R(q) @ L(q) @ H`. -/
def Q (q : Fin 4 → ℝ) : Matrix (Fin 3) (Fin 3) ℝ :=
  H.transpose * R q * L q * H

/-- The entries of `quat.L`. -/
theorem L_entries (q : Fin 4 → ℝ) :
    L q = !![q 0, -q 1, -q 2, -q 3;
             q 1, q 0, -q 3, q 2;
             q 2, q 3, q 0, -q 1;
             q 3, -q 2, q 1, q 0] := by
  ext i j
  fin_cases i <;> fin_cases j <;>
    simp [L, L_or_R, skew, Matrix.add_apply, Matrix.smul_apply,
      Matrix.one_apply]

/-- The entries of `quat.R`. -/
theorem R_entries (q : Fin 4 → ℝ) :
    R q = !![q 0, -q 1, -q 2, -q 3;
             q 1, q 0, q 3, -q 2;
             q 2, -q 3, q 0, q 1;
             q 3, q 2, -q 1, q 0] := by
  ext i j
  fin_cases i <;> fin_cases j <;>
    simp [R, L_or_R, skew, Matrix.add_apply, Matrix.smul_apply,
      Matrix.one_apply]

/-- The entries of `quat.R` transposed. -/
theorem RT_entries (q : Fin 4 → ℝ) :
    (R q).transpose = !![q 0, q 1, q 2, q 3;
                         -q 1, q 0, -q 3, q 2;
                         -q 2, q 3, q 0, -q 1;
                         -q 3, -q 2, q 1, q 0] := by
  rw [R_entries]
  ext i j
  fin_cases i <;> fin_cases j <;> simp [Matrix.transpose_apply]

/-- `H^T M H` extracts the lower-right 3x3 block of a 4x4 matrix. -/
theorem HT_mul_mul_H (M : Matrix (Fin 4) (Fin 4) ℝ) :
    H.transpose * M * H = !![M 1 1, M 1 2, M 1 3;
                             M 2 1, M 2 2, M 2 3;
                             M 3 1, M 3 2, M 3 3] := by
  ext i j
  fin_cases i <;> fin_cases j <;>
    simp [H, Matrix.mul_apply, Fin.sum_univ_four, Matrix.transpose_apply,
      Matrix.vecHead, Matrix.vecTail, Function.comp]

/-- The matrix `quat.Q` actually computes: a symmetric matrix (equal to
`I - 2 v v^T` for a unit quaternion with vector part `v`), not the standard
rotation matrix. -/
theorem Q_entries (q : Fin 4 → ℝ) :
    Q q = !![q 0 ^ 2 - q 1 ^ 2 + q 2 ^ 2 + q 3 ^ 2,
             -2 * q 1 * q 2, -2 * q 1 * q 3;
             -2 * q 1 * q 2, q 0 ^ 2 + q 1 ^ 2 - q 2 ^ 2 + q 3 ^ 2,
             -2 * q 2 * q 3;
             -2 * q 1 * q 3, -2 * q 2 * q 3,
             q 0 ^ 2 + q 1 ^ 2 + q 2 ^ 2 - q 3 ^ 2] := by
  rw [Q, Matrix.mul_assoc H.transpose (R q) (L q), HT_mul_mul_H]
  rw [L_entries, R_entries]
  ext i j
  fin_cases i <;> fin_cases j <;>
    simp [Matrix.mul_apply, Fin.sum_univ_four] <;> ring

/-- C2: the unit quaternion `q = (3/5, 0, 0, 4/5)` is a failing input for
the claim: the code's `Q(q)` evaluates to `diag(1, 1, -7/25)`, whose Gram
matrix `Q^T Q = diag(1, 1, 49/625)` is not the identity and whose
determinant is `-7/25`, not `1`.  (`H^T R(q) L(q) H` misses a transpose:
the rotation-matrix identity is `H^T R(q)^T L(q) H`, cf.
`Q_transposed_R_is_rotation` below.) -/
theorem C2_code_bug :
    ((3 / 5 : ℝ) ^ 2 + (0 : ℝ) ^ 2 + (0 : ℝ) ^ 2 + (4 / 5 : ℝ) ^ 2 = 1) ∧
    Q ![3 / 5, 0, 0, 4 / 5] = !![1, 0, 0; 0, 1, 0; 0, 0, -(7 / 25)] ∧
    (Q ![3 / 5, 0, 0, 4 / 5]).transpose * Q ![3 / 5, 0, 0, 4 / 5] ≠ 1 ∧
    (Q ![3 / 5, 0, 0, 4 / 5]).det ≠ 1 := by
  have hQ : Q ![3 / 5, 0, 0, 4 / 5] =
      !![1, 0, 0; 0, 1, 0; 0, 0, -(7 / 25)] := by
    rw [Q_entries]
    norm_num
  refine ⟨by norm_num, hQ, ?_, ?_⟩
  · intro h
    have h22 := congrFun (congrFun h 2) 2
    rw [hQ] at h22
    simp [Matrix.mul_apply, Fin.sum_univ_three, Matrix.one_apply,
      Matrix.transpose_apply, Matrix.vecHead, Matrix.vecTail] at h22
    norm_num at h22
  · rw [hQ, Matrix.det_fin_three]
    norm_num

set_option maxHeartbeats 1000000 in
/-- The lower-right 3x3 block of `R(q)^T L(q)`: the standard
quaternion-to-rotation-matrix formula. -/
theorem Qfix_entries (q : Fin 4 → ℝ) :
    H.transpose * (R q).transpose * L q * H =
      !![q 0 ^ 2 + q 1 ^ 2 - q 2 ^ 2 - q 3 ^ 2,
         -2 * q 0 * q 3 + 2 * q 1 * q 2, 2 * q 0 * q 2 + 2 * q 1 * q 3;
         2 * q 0 * q 3 + 2 * q 1 * q 2,
         q 0 ^ 2 - q 1 ^ 2 + q 2 ^ 2 - q 3 ^ 2,
         -2 * q 0 * q 1 + 2 * q 2 * q 3;
         -2 * q 0 * q 2 + 2 * q 1 * q 3, 2 * q 0 * q 1 + 2 * q 2 * q 3,
         q 0 ^ 2 - q 1 ^ 2 - q 2 ^ 2 + q 3 ^ 2] := by
  rw [Matrix.mul_assoc H.transpose ((R q).transpose) (L q), HT_mul_mul_H]
  rw [L_entries, RT_entries]
  ext i j
  fin_cases i <;> fin_cases j <;>
    simp [Matrix.mul_apply, Fin.sum_univ_four] <;> ring

set_option maxHeartbeats 1000000 in
/-- The intended rotation matrix: the same expression with `R(q)`
transposed, `H^T R(q)^T L(q) H`, is orthogonal with determinant `1` for
every unit quaternion — evidence that the missing transpose in `quat.Q` is
a slip rather than the intent. -/
theorem Q_transposed_R_is_rotation (q : Fin 4 → ℝ)
    (hq : q 0 ^ 2 + q 1 ^ 2 + q 2 ^ 2 + q 3 ^ 2 = 1) :
    (H.transpose * (R q).transpose * L q * H).transpose *
      (H.transpose * (R q).transpose * L q * H) = 1 ∧
    (H.transpose * (R q).transpose * L q * H).det = 1 := by
  have hfix := Qfix_entries q
  constructor
  · rw [hfix]
    ext i j
    fin_cases i <;> fin_cases j <;>
      simp [Matrix.mul_apply, Fin.sum_univ_three, Matrix.one_apply,
        Matrix.transpose_apply, Matrix.vecHead, Matrix.vecTail]
    all_goals
      try linear_combination (q 0 ^ 2 + q 1 ^ 2 + q 2 ^ 2 + q 3 ^ 2 + 1) * hq
    all_goals ring
  · rw [hfix, Matrix.det_fin_three]
    norm_num
    linear_combination
      ((q 0 ^ 2 + q 1 ^ 2 + q 2 ^ 2 + q 3 ^ 2) ^ 2 +
        (q 0 ^ 2 + q 1 ^ 2 + q 2 ^ 2 + q 3 ^ 2) + 1) * hq

/-! ## Nonlinear vs parameter-affine quadrotor dynamics (`par/models.py`) -/

/-- `par.constants.GRAVITY` (`par/constants.py` is not under `src/`; the
spec's gravity constant — its numeric value plays no role in the
equivalence below, both models use the same `g`). -/
noncomputable def GRAVITY : ℝ := 9.81

/-- `par.utils.math.alternating_ones(n)`: a vector of ones with every
even-indexed entry set to `-1` (`ones[::2] = -1.0`).  The legacy module
imports the same helper under the name `get_alternating_ones`. -/
noncomputable def alternating_ones (n : Nat) : List ℝ :=
  (List.range n).map (fun i => if i % 2 = 0 then -1 else 1)

/-- Dot product of two rows (truncating at the shorter, as `casadi`
shapes always agree here). -/
def dotL : List ℝ → List ℝ → ℝ
  | a :: as, b :: bs => a * b + dotL as bs
  | _, _ => 0

/-- Matrix-vector product `M @ v` for a matrix given as its rows. -/
def matVec (M : List (List ℝ)) (v : List ℝ) : List ℝ :=
  M.map (fun r => dotL r v)

/-- Element-wise sum of two vectors. -/
def addV (v w : List ℝ) : List ℝ := List.zipWith (· + ·) v w

/-- Element-wise difference of two vectors. -/
def subV (v w : List ℝ) : List ℝ := List.zipWith (· - ·) v w

/-- Element-wise product of two vectors (`casadi`/numpy `*`). -/
def mulV (v w : List ℝ) : List ℝ := List.zipWith (· * ·) v w

/-- Element-wise negation. -/
def negV (v : List ℝ) : List ℝ := v.map (fun x => -x)

/-- Scalar multiple `c * v`. -/
def smulS (c : ℝ) (v : List ℝ) : List ℝ := v.map (fun x => c * x)

/-- Element-wise division by a scalar, `v / c`. -/
noncomputable def divS (v : List ℝ) (c : ℝ) : List ℝ := v.map (fun x => x / c)

/-- `cs.diag(v)`. -/
def diagL (v : List ℝ) : List (List ℝ) :=
  (List.range v.length).map (fun i =>
    (List.range v.length).map (fun j => if i = j then v.getD i 0 else 0))

/-- Negation of a matrix given as rows. -/
def negM (M : List (List ℝ)) : List (List ℝ) := M.map negV

/-- `cs.SX.zeros(m, n)` as rows. -/
def zerosM (m n : Nat) : List (List ℝ) :=
  List.replicate m (List.replicate n 0)

/-- `cs.horzcat` of three row-aligned blocks. -/
def horzcat3 (A B C : List (List ℝ)) : List (List ℝ) :=
  List.zipWith (· ++ ·) (List.zipWith (· ++ ·) A B) C

/-- `cs.cross(a, b)` on 3-vectors. -/
def cross3 (a b : List ℝ) : List ℝ :=
  [a.getD 1 0 * b.getD 2 0 - a.getD 2 0 * b.getD 1 0,
   a.getD 2 0 * b.getD 0 0 - a.getD 0 0 * b.getD 2 0,
   a.getD 0 0 * b.getD 1 0 - a.getD 1 0 * b.getD 0 0]

/-- A 4-element list viewed as the quaternion argument of the `quat`
operators. -/
def finVec4 (q : List ℝ) : Fin 4 → ℝ :=
  ![q.getD 0 0, q.getD 1 0, q.getD 2 0, q.getD 3 0]

/-- A `Fin`-indexed matrix as its list of rows. -/
def toLists {m n : Nat} (M : Matrix (Fin m) (Fin n) ℝ) : List (List ℝ) :=
  List.ofFn (fun i : Fin m => List.ofFn (fun j : Fin n => M i j))

/-- `quat.Q(q)` as a list-of-rows matrix, for a list-valued state block. -/
noncomputable def QmatL (q : List ℝ) : List (List ℝ) := toLists (Q (finVec4 q))

/-- `quat.Q(q).T` as a list-of-rows matrix. -/
noncomputable def QmatLT (q : List ℝ) : List (List ℝ) :=
  toLists (Q (finVec4 q)).transpose

/-- `quat.G(q)` as a list-of-rows matrix. -/
noncomputable def GmatL (q : List ℝ) : List (List ℝ) := toLists (G (finVec4 q))

/-- `par.models.ModelParameters`: mass, drag coefficients (3), principal
moments of inertia, and per-actuator thrust/torque geometry coefficients
(4 each), in the `PARAMETER_CONFIG` order `m, a, Ixx, Iyy, Izz, k, c, r,
s`. -/
structure ModelParameters where
  m : ℝ
  a : List ℝ
  Ixx : ℝ
  Iyy : ℝ
  Izz : ℝ
  k : List ℝ
  c : List ℝ
  r : List ℝ
  s : List ℝ

/-- `ModelParameters.affine_vector`:
`hstack((a/m, k/m, k*s/Ixx, k*r/Iyy, c/Izz,
((Izz-Iyy)/Ixx, (Ixx-Izz)/Iyy, (Iyy-Ixx)/Izz)))`. -/
noncomputable def ModelParameters.affine_vector (p : ModelParameters) : List ℝ :=
  divS p.a p.m ++ divS p.k p.m ++ divS (mulV p.k p.s) p.Ixx ++
    divS (mulV p.k p.r) p.Iyy ++ divS p.c p.Izz ++
    [(p.Izz - p.Iyy) / p.Ixx, (p.Ixx - p.Izz) / p.Iyy,
     (p.Iyy - p.Ixx) / p.Izz]

/-- The continuous vector field compiled by
`NonlinearQuadrotorModel._set_model`, evaluated at the state blocks
`(p, q, vB, wB)`, input `u`, noise `w` and the physical parameters:
`xdot = w + vertcat(Q(q)vB, 0.5 G(q)wB,
Q(q)^T g + (K u - A vB)/m - wB x vB, J^-1 (B u - wB x (J wB)))` with
`K = vertcat(zeros(2,4), k^T)`, `A = diag(a)`, `J = diag(Ixx,Iyy,Izz)` and
`B = vertcat((k*s)^T, -(k*r)^T, alternating_ones^T * c^T)`; `cs.inv(J)` of
the diagonal `J` is its diagonal inverse. -/
noncomputable def f_nonlinear (par : ModelParameters)
    (p q vB wB u w : List ℝ) : List ℝ :=
  let g : List ℝ := [0, 0, -GRAVITY]
  let A := diagL par.a
  let J := diagL [par.Ixx, par.Iyy, par.Izz]
  let K : List (List ℝ) :=
    [List.replicate 4 0, List.replicate 4 0, par.k]
  let B : List (List ℝ) :=
    [mulV par.k par.s, negV (mulV par.k par.r),
     mulV (alternating_ones 4) par.c]
  let Jinv := diagL [1 / par.Ixx, 1 / par.Iyy, 1 / par.Izz]
  addV w (
    matVec (QmatL q) vB ++
    smulS 0.5 (matVec (GmatL q) wB) ++
    subV (addV (matVec (QmatLT q) g)
      (divS (subV (matVec K u) (matVec A vB)) par.m)) (cross3 wB vB) ++
    matVec Jinv (subV (matVec B u) (cross3 wB (matVec J wB))))

/-- The continuous vector field compiled by
`ParameterAffineQuadrotorModel._set_affine_model`:
`xdot = w + F + G @ theta` with the parameter-independent part
`F = vertcat(Q(q)vB, 0.5 G(q)wB, Q(q)^T g - wB x vB, zeros(3))` and
`G = vertcat(zeros(7, 22), horzcat(-diag(vB), K, zeros(3, 15)),
horzcat(zeros(3, 7), C, -I))` where `K = vertcat(zeros(2,4), u^T)`,
`C = vertcat((u^T, 0, 0), (0, -u^T, 0), (0, 0, alternating_ones^T * u^T))`
and `I = diag(wB1*wB2, wB0*wB2, wB0*wB1)`. -/
noncomputable def f_affine (p q vB wB u w theta : List ℝ) : List ℝ :=
  let g : List ℝ := [0, 0, -GRAVITY]
  let F : List ℝ :=
    matVec (QmatL q) vB ++
    smulS 0.5 (matVec (GmatL q) wB) ++
    subV (matVec (QmatLT q) g) (cross3 wB vB) ++
    List.replicate 3 0
  let K : List (List ℝ) :=
    [List.replicate 4 0, List.replicate 4 0, u]
  let A := diagL vB
  let C : List (List ℝ) :=
    [u ++ List.replicate 8 0,
     List.replicate 4 0 ++ negV u ++ List.replicate 4 0,
     List.replicate 8 0 ++ mulV (alternating_ones 4) u]
  let I : List (List ℝ) :=
    diagL [wB.getD 1 0 * wB.getD 2 0, wB.getD 0 0 * wB.getD 2 0,
           wB.getD 0 0 * wB.getD 1 0]
  let G13 : List (List ℝ) :=
    zerosM 7 (6 + 4 * 4) ++
    horzcat3 (negM A) K (zerosM 3 (3 + 3 * 4)) ++
    horzcat3 (zerosM 3 (3 + 4)) C (negM I)
  addV w (addV F (matVec G13 theta))

/-- The entries of `quat.G(q) = L(q) @ H`: columns 1-3 of `L(q)`. -/
theorem G_entries (q : Fin 4 → ℝ) :
    G q = !![-q 1, -q 2, -q 3;
             q 0, -q 3, q 2;
             q 3, q 0, -q 1;
             -q 2, q 1, q 0] := by
  rw [G, L_entries]
  ext i j
  fin_cases i <;> fin_cases j <;>
    simp [H, Matrix.mul_apply, Fin.sum_univ_four, Fin.sum_univ_three,
      Matrix.vecHead, Matrix.vecTail]

/-- `finVec4` on a four-element list. -/
theorem finVec4_eval (q0 q1 q2 q3 : ℝ) :
    finVec4 [q0, q1, q2, q3] = ![q0, q1, q2, q3] := by
  funext i; fin_cases i <;> simp [finVec4]

/-- `quat.Q` as rows, on a four-element quaternion list. -/
theorem QmatL_eval (q0 q1 q2 q3 : ℝ) :
    QmatL [q0, q1, q2, q3] =
      [[q0 ^ 2 - q1 ^ 2 + q2 ^ 2 + q3 ^ 2, -2 * q1 * q2, -2 * q1 * q3],
       [-2 * q1 * q2, q0 ^ 2 + q1 ^ 2 - q2 ^ 2 + q3 ^ 2, -2 * q2 * q3],
       [-2 * q1 * q3, -2 * q2 * q3, q0 ^ 2 + q1 ^ 2 + q2 ^ 2 - q3 ^ 2]] := by
  rw [QmatL, finVec4_eval, Q_entries]
  simp [toLists, List.ofFn_succ]

/-- `quat.Q` transposed as rows (`quat.Q` is symmetric). -/
theorem QmatLT_eval (q0 q1 q2 q3 : ℝ) :
    QmatLT [q0, q1, q2, q3] =
      [[q0 ^ 2 - q1 ^ 2 + q2 ^ 2 + q3 ^ 2, -2 * q1 * q2, -2 * q1 * q3],
       [-2 * q1 * q2, q0 ^ 2 + q1 ^ 2 - q2 ^ 2 + q3 ^ 2, -2 * q2 * q3],
       [-2 * q1 * q3, -2 * q2 * q3, q0 ^ 2 + q1 ^ 2 + q2 ^ 2 - q3 ^ 2]] := by
  rw [QmatLT, finVec4_eval, Q_entries]
  simp [toLists, List.ofFn_succ, Matrix.transpose_apply]

/-- `quat.G` as rows, on a four-element quaternion list. -/
theorem GmatL_eval (q0 q1 q2 q3 : ℝ) :
    GmatL [q0, q1, q2, q3] =
      [[-q1, -q2, -q3], [q0, -q3, q2], [q3, q0, -q1], [-q2, q1, q0]] := by
  rw [GmatL, finVec4_eval, G_entries]
  simp [toLists, List.ofFn_succ]

set_option maxHeartbeats 2000000 in
/-- C1: for every state (position, attitude quaternion, body-frame linear
and angular velocity), every input, zero process noise, and every physical
parameter set with positive mass and principal moments of inertia, the
nonlinear quadrotor model's continuous vector field equals the
parameter-affine model's continuous vector field evaluated at the same
state and input with `theta = affine_vector` of the same physical
parameters. -/
theorem C1_affine_nonlinear_equivalence (m Ixx Iyy Izz : ℝ)
    (hm : 0 < m) (hIxx : 0 < Ixx) (hIyy : 0 < Iyy) (hIzz : 0 < Izz)
    (a0 a1 a2 k0 k1 k2 k3 c0 c1 c2 c3 r0 r1 r2 r3 s0 s1 s2 s3 : ℝ)
    (p0 p1 p2 q0 q1 q2 q3 v0 v1 v2 w0 w1 w2 u0 u1 u2 u3 : ℝ) :
    f_nonlinear
        ⟨m, [a0, a1, a2], Ixx, Iyy, Izz, [k0, k1, k2, k3], [c0, c1, c2, c3],
          [r0, r1, r2, r3], [s0, s1, s2, s3]⟩
        [p0, p1, p2] [q0, q1, q2, q3] [v0, v1, v2] [w0, w1, w2]
        [u0, u1, u2, u3] (List.replicate 13 0) =
      f_affine [p0, p1, p2] [q0, q1, q2, q3] [v0, v1, v2] [w0, w1, w2]
        [u0, u1, u2, u3] (List.replicate 13 0)
        (ModelParameters.affine_vector
          ⟨m, [a0, a1, a2], Ixx, Iyy, Izz, [k0, k1, k2, k3], [c0, c1, c2, c3],
            [r0, r1, r2, r3], [s0, s1, s2, s3]⟩) := by
  have hm0 : m ≠ 0 := ne_of_gt hm
  have hIxx0 : Ixx ≠ 0 := ne_of_gt hIxx
  have hIyy0 : Iyy ≠ 0 := ne_of_gt hIyy
  have hIzz0 : Izz ≠ 0 := ne_of_gt hIzz
  simp only [f_nonlinear, f_affine, ModelParameters.affine_vector,
    QmatL_eval, QmatLT_eval, GmatL_eval, alternating_ones, diagL, cross3,
    matVec, dotL, addV, subV, mulV, negV, smulS, divS, negM, zerosM,
    horzcat3]
  norm_num [List.range_succ, List.replicate, dotL, addV, subV, mulV, negV,
    smulS, divS, negM, zerosM, horzcat3]
  all_goals first | rfl | (field_simp; ring) | field_simp
  all_goals simp

/-- C1 (witness): the equivalence evaluated at unit parameters and a
concrete state/input. -/
theorem C1_witness :
    (0 : ℝ) < 1 ∧
    f_nonlinear
        ⟨1, [1, 1, 1], 1, 1, 1, [1, 1, 1, 1], [1, 1, 1, 1], [1, 1, 1, 1],
          [1, 1, 1, 1]⟩
        [1, 1, 1] [1, 0, 0, 0] [1, 1, 1] [1, 1, 1] [1, 1, 1, 1]
        (List.replicate 13 0) =
      f_affine [1, 1, 1] [1, 0, 0, 0] [1, 1, 1] [1, 1, 1] [1, 1, 1, 1]
        (List.replicate 13 0)
        (ModelParameters.affine_vector
          ⟨1, [1, 1, 1], 1, 1, 1, [1, 1, 1, 1], [1, 1, 1, 1], [1, 1, 1, 1],
            [1, 1, 1, 1]⟩) :=
  ⟨by norm_num,
    C1_affine_nonlinear_equivalence 1 1 1 1 (by norm_num) (by norm_num)
      (by norm_num) (by norm_num) 1 1 1 1 1 1 1 1 1 1 1 1 1 1 1 1 1 1 1
      1 1 1 1 0 0 0 1 1 1 1 1 1 1 1 1 1⟩

end PAR